import Mathlib

/-!
Verification development for the two utility scripts of this repository:
the country-subdivision CSV-to-SQL converter
(`migrations/2025-03-06-054004_country_subdivisions_insert/conv.py`)
and the synthetic visitor-data generator (`visitor.py`).

Strings are modelled as `List Char`.  Input files for the converter are
modelled as the list of already-parsed records (each record the list of
its semicolon-separated fields), which is the data `csv.reader` hands to
the processing loop.  Fallible control flow (`sys.exit`, uncaught
exceptions) is modelled with `Except`: an `Except.error` result means the
process terminates with a non-zero exit status before the output file is
opened, so no output content exists on that path.
-/

abbrev Str := List Char

def sqc : Char := Char.ofNat 39

def dq : Char := Char.ofNat 34

def commaChar : Char := Char.ofNat 44

def underscoreChar : Char := Char.ofNat 95

def plusChar : Char := Char.ofNat 43

def minusChar : Char := Char.ofNat 45

def dotChar : Char := Char.ofNat 46

/-- Python `str.strip()` whitespace predicate (ASCII whitespace). -/
def pyIsSpace (c : Char) : Bool :=
  c = Char.ofNat 32 || c = Char.ofNat 9 || c = Char.ofNat 10 ||
  c = Char.ofNat 13 || c = Char.ofNat 11 || c = Char.ofNat 12

/-- Strip characters satisfying `p` from both ends, as Python `str.strip`. -/
def stripWhile (p : Char → Bool) (s : Str) : Str :=
  ((s.dropWhile p).reverse.dropWhile p).reverse

/-- Python `s.strip()`. -/
def pyStrip (s : Str) : Str := stripWhile pyIsSpace s

/-- Python `s.strip(chr(34))`: strip double quotes from both ends. -/
def pyStripQuotes (s : Str) : Str := stripWhile (fun c => c = dq) s

/-- The field cleaning used by conv.py: `line[i].strip().strip(chr(34))`. -/
def cleanField (s : Str) : Str := pyStripQuotes (pyStrip s)

/-- Python `s.upper()` on ASCII data. -/
def pyUpper (s : Str) : Str := s.map Char.toUpper

/-- Python `s.capitalize()` on ASCII data: first character upper, rest lower. -/
def pyCapitalize (s : Str) : Str :=
  match s with
  | [] => []
  | c :: r => Char.toUpper c :: r.map Char.toLower

def digitVal (c : Char) : Nat := c.toNat - 48

/-- Digit-run parser for Python `int()`: after an initial digit, later
digits may be separated by single underscores (PEP 515).  The boolean flag
records whether the previous character was an underscore (an underscore
must be followed by a digit and underscores may not repeat or end the
run). -/
def parseDigits : Bool → Nat → Str → Option Nat
  | afterSep, acc, [] => if afterSep then none else some acc
  | afterSep, acc, c :: rest =>
    if c.isDigit then parseDigits false (acc * 10 + digitVal c) rest
    else if c = underscoreChar then
      if afterSep then none else parseDigits true acc rest
    else none

/-- Unsigned decimal parse: the first character must be a digit. -/
def parseUInt (s : Str) : Option Nat :=
  match s with
  | [] => none
  | c :: rest => if c.isDigit then parseDigits false (digitVal c) rest else none

/-- Python `int(s)` on a decimal string: optional surrounding whitespace,
optional sign, then digits with optional single underscore separators. -/
def pyInt (s : Str) : Option Int :=
  match pyStrip s with
  | [] => none
  | c :: rest =>
    if c = plusChar then (parseUInt rest).map Int.ofNat
    else if c = minusChar then (parseUInt rest).map (fun n => -(Int.ofNat n))
    else (parseUInt (c :: rest)).map Int.ofNat

/-- Python `s.replace(chr(39), chr(39)*2)`: double every single quote. -/
def escapeQuotes : Str → Str
  | [] => []
  | c :: r => if c = sqc then sqc :: sqc :: escapeQuotes r else c :: escapeQuotes r

def digitChar (n : Nat) : Char := Char.ofNat (48 + n % 10)

/-- Fuel-indexed decimal rendering helper (fuel `n + 1` always suffices). -/
def natToStrGo : Nat → Nat → Str
  | 0, _ => []
  | fuel + 1, n =>
    if n < 10 then [digitChar n]
    else natToStrGo fuel (n / 10) ++ [digitChar (n % 10)]

/-- Decimal rendering of a natural number, as Python `str`. -/
def natToStr (n : Nat) : Str := natToStrGo (n + 1) n

/-- Decimal rendering of an integer, as Python `str` on `int`. -/
def intToStr (i : Int) : Str :=
  if i < 0 then minusChar :: natToStr i.natAbs else natToStr i.toNat

/-- The country-code correlated subquery built by conv.py; note the cleaned
alpha-2 code is interpolated verbatim, without quote escaping. -/
def countryCodeExpr (a : Str) : Str :=
  ("(SELECT country_code FROM public.iso_country WHERE country_alpha2 = ".data)
    ++ [sqc] ++ a ++ [sqc, Char.ofNat 41]

/-- The VALUES tuple literal built by conv.py. -/
def rowStrFmt (id : Int) (a codeSql nameSql tySql : Str) : Str :=
  [Char.ofNat 40] ++ intToStr id ++ (", ".data) ++ countryCodeExpr a
    ++ (", ".data) ++ [sqc] ++ codeSql ++ [sqc]
    ++ (", ".data) ++ [sqc] ++ nameSql ++ [sqc]
    ++ (", ".data) ++ [sqc] ++ tySql ++ [sqc] ++ [Char.ofNat 41]

/-- The hard-coded alpha-2 remap of conv.py: KP (any letter case) becomes KR. -/
def remapKP (a : Str) : Str :=
  if pyUpper a = ("KP".data) then ("KR".data) else a

/-- Cleaned, remapped first field of a record (`country_alpha2` in conv.py). -/
def fieldAlpha2 (l : List Str) : Str := remapKP (cleanField (l.getD 0 []))

/-- Cleaned second field (`region_name`). -/
def fieldName (l : List Str) : Str := cleanField (l.getD 1 [])

/-- Cleaned, capitalized third field (`region_type`). -/
def fieldType (l : List Str) : Str := pyCapitalize (cleanField (l.getD 2 []))

/-- Cleaned fourth field (`regional_code`). -/
def fieldCode (l : List Str) : Str := cleanField (l.getD 3 [])

/-- Trimmed fifth field (`regional_number_code`); note conv.py only strips
whitespace here, not quotes. -/
def fieldNum (l : List Str) : Str := pyStrip (l.getD 4 [])

/-- The dedup key of conv.py: (remapped alpha-2 code, regional code). -/
def lineKey (l : List Str) : Str × Str := (fieldAlpha2 l, fieldCode l)

/-- Loop state of `process_file`: the `seen` set (modelled as the list of
keys in insertion order, used only through membership) and the accumulated
tuple strings. -/
structure ConvState where
  seen : List (Str × Str)
  rows : List Str
deriving DecidableEq

/-- One iteration of the row loop of `process_file`. -/
def step (st : ConvState) (line : List Str) : Except Str ConvState :=
  if line.length < 5 then Except.ok st
  else
    let key := lineKey line
    if key ∈ st.seen then Except.ok st
    else
      match pyInt (fieldNum line) with
      | none => Except.error (("Invalid subdivision id: ".data) ++ fieldNum line)
      | some id =>
        Except.ok ⟨st.seen ++ [key],
          st.rows ++ [rowStrFmt id (fieldAlpha2 line) (escapeQuotes (fieldCode line))
            (escapeQuotes (fieldName line)) (escapeQuotes (fieldType line))]⟩

/-- The row loop of `process_file`. -/
def runRows : ConvState → List (List Str) → Except Str ConvState
  | st, [] => Except.ok st
  | st, l :: r =>
    match step st l with
    | Except.ok st2 => runRows st2 r
    | Except.error e => Except.error e

/-- Header detection of `process_file`: the first record is consumed as a
header only when its first field, trimmed and uppercased, is the literal
header text; otherwise the reader is rewound and every record is data.
An empty file or an empty first record makes the Python script die with an
uncaught exception (StopIteration / IndexError). -/
def dataRows (input : List (List Str)) : Except Str (List (List Str)) :=
  match input with
  | [] => Except.error ("StopIteration".data)
  | first :: rest =>
    match first with
    | [] => Except.error ("IndexError".data)
    | f0 :: _ =>
      Except.ok (if pyUpper (pyStrip f0) = ("COUNTRY SHORT CODE".data) then rest
                 else first :: rest)

def headerLine : Str :=
  ("INSERT INTO public.iso_country_subdivision (subdivision_id, country_code, subdivision_code, subdivision_name, subdivision_type) VALUES\n".data)

/-- Python `(chr(44) + chr(10)).join`, i.e. join with a comma and newline. -/
def joinRows : List Str → Str
  | [] => []
  | [r] => r
  | r :: rest => r ++ (",\n".data) ++ joinRows rest

/-- Whole-run model of `process_file`: the result is the full content of the
output file on success, and the fatal error message (process exits non-zero,
output file never opened) on failure. -/
def process_file (input : List (List Str)) : Except Str Str :=
  match dataRows input with
  | Except.error e => Except.error e
  | Except.ok rows =>
    match runRows ⟨[], []⟩ rows with
    | Except.error e => Except.error e
    | Except.ok st => Except.ok (headerLine ++ joinRows st.rows ++ (";\n".data))

example : pyInt ("6".data) = some 6 := by decide

example : pyInt ("x".data) = none := by decide

example : pyInt (" -1_0 ".data) = some (-10) := by decide

example : pyInt ("1__0".data) = none := by decide

example : pyInt ("_1".data) = none := by decide

example : pyInt ("1_".data) = none := by decide

example : pyCapitalize ("state".data) = ("State".data) := by decide

example : escapeQuotes (sqc :: ("ab".data)) = sqc :: sqc :: ("ab".data) := by decide

example : intToStr (-45) = (minusChar :: ("45".data)) := by decide

def c7row : List Str :=
  [("US".data), ("California".data), ("state".data), ("CA".data), ("6".data)]

def c7tuple : Str :=
  ("(6, (SELECT country_code FROM public.iso_country WHERE country_alpha2 = ".data)
    ++ [sqc] ++ ("US".data) ++ [sqc] ++ ("), ".data)
    ++ [sqc] ++ ("CA".data) ++ [sqc] ++ (", ".data)
    ++ [sqc] ++ ("California".data) ++ [sqc] ++ (", ".data)
    ++ [sqc] ++ ("State".data) ++ [sqc] ++ (")".data)

/-- C7: on the single data row `US;California;state;CA;6` the converter emits
exactly the tuple `(6, (SELECT country_code FROM public.iso_country WHERE
country_alpha2 = 'US'), 'CA', 'California', 'State')`: the region type is
capitalized and the tuple field order is id, country subquery, code, name,
type.  The full output file is the INSERT header, this one tuple, and the
terminating semicolon and newline. -/
theorem claim_C7_example_row :
    runRows ⟨[], []⟩ [c7row] = Except.ok ⟨[(("US".data), ("CA".data))], [c7tuple]⟩ ∧
    process_file [c7row] = Except.ok (headerLine ++ c7tuple ++ (";\n".data)) := by
  exact ⟨rfl, rfl⟩

/-- C8: a data row with fewer than five fields is skipped silently: the loop
step returns the state unchanged (no tuple emitted, nothing added to the
dedup set, no error), and processing continues with the remaining rows
exactly as if the row were absent. -/
theorem claim_C8_short_row_skipped (st : ConvState) (line : List Str)
    (rest : List (List Str)) (h : line.length < 5) :
    step st line = Except.ok st ∧ runRows st (line :: rest) = runRows st rest := by
  have hs : step st line = Except.ok st := by
    unfold step
    rw [if_pos h]
  refine ⟨hs, ?_⟩
  have hr : runRows st (line :: rest) =
      match step st line with
      | Except.ok st2 => runRows st2 rest
      | Except.error e => Except.error e := rfl
  rw [hr, hs]

theorem claim_C8_witness :
    (([("A".data)] : List Str).length < 5) ∧
    (step ⟨[], []⟩ [("A".data)] = Except.ok ⟨[], []⟩ ∧
      runRows ⟨[], []⟩ [[("A".data)]] = runRows ⟨[], []⟩ []) :=
  ⟨by decide, claim_C8_short_row_skipped ⟨[], []⟩ [("A".data)] [] (by decide)⟩

/-- C10: when no input row yields a tuple, the converter still writes the
output file, whose content is exactly the INSERT header line followed by the
empty VALUES list and the terminating semicolon and newline. -/
theorem claim_C10_empty_values (input rows : List (List Str)) (st : ConvState)
    (h1 : dataRows input = Except.ok rows)
    (h2 : runRows ⟨[], []⟩ rows = Except.ok st)
    (h3 : st.rows = []) :
    process_file input = Except.ok (headerLine ++ (";\n".data)) := by
  unfold process_file
  rw [h1]
  dsimp only
  rw [h2]
  dsimp only
  rw [h3]
  simp [joinRows]

theorem claim_C10_witness :
    dataRows [[("A".data), ("B".data)]] = Except.ok [[("A".data), ("B".data)]] ∧
    runRows ⟨[], []⟩ [[("A".data), ("B".data)]] = Except.ok ⟨[], []⟩ ∧
    (⟨[], []⟩ : ConvState).rows = [] ∧
    process_file [[("A".data), ("B".data)]] = Except.ok (headerLine ++ (";\n".data)) :=
  ⟨rfl, rfl, rfl,
    claim_C10_empty_values [[("A".data), ("B".data)]] [[("A".data), ("B".data)]]
      ⟨[], []⟩ rfl rfl rfl⟩

theorem step_emit (st : ConvState) (line : List Str) (h5 : ¬ line.length < 5)
    (hk : lineKey line ∉ st.seen) (id : Int) (hid : pyInt (fieldNum line) = some id) :
    step st line = Except.ok ⟨st.seen ++ [lineKey line],
      st.rows ++ [rowStrFmt id (fieldAlpha2 line) (escapeQuotes (fieldCode line))
        (escapeQuotes (fieldName line)) (escapeQuotes (fieldType line))]⟩ := by
  simp [step, h5, hk, hid]

theorem step_error (st : ConvState) (line : List Str) (h5 : ¬ line.length < 5)
    (hk : lineKey line ∉ st.seen) (hid : pyInt (fieldNum line) = none) :
    step st line = Except.error (("Invalid subdivision id: ".data) ++ fieldNum line) := by
  simp [step, h5, hk, hid]

theorem runRows_append (st : ConvState) (xs ys : List (List Str)) :
    runRows st (xs ++ ys) =
      match runRows st xs with
      | Except.ok st2 => runRows st2 ys
      | Except.error e => Except.error e := by
  induction xs generalizing st with
  | nil => rfl
  | cons l r ih =>
    cases hstep : step st l with
    | ok st2 =>
      simp only [List.cons_append, runRows, hstep]
      exact ih st2
    | error e => simp only [List.cons_append, runRows, hstep]

/-- C1: if some data row survives the length check and the dedup check but its
fifth field (trimmed) does not parse as a Python integer, the whole run aborts
with the fatal message naming the offending value.  In this model the
`Except.error` result is the non-zero process exit raised by `sys.exit` while
the input is still being read, so the output file is never opened, created or
updated.  `pre` is the list of data rows processed before the offending row
and `st1` the loop state they produce. -/
theorem claim_C1_fatal_on_bad_id (input pre post : List (List Str)) (l : List Str)
    (st1 : ConvState)
    (hdata : dataRows input = Except.ok (pre ++ l :: post))
    (hpre : runRows ⟨[], []⟩ pre = Except.ok st1)
    (h5 : ¬ l.length < 5)
    (hk : lineKey l ∉ st1.seen)
    (hid : pyInt (fieldNum l) = none) :
    process_file input = Except.error (("Invalid subdivision id: ".data) ++ fieldNum l) := by
  have herr : runRows ⟨[], []⟩ (pre ++ l :: post) =
      Except.error (("Invalid subdivision id: ".data) ++ fieldNum l) := by
    rw [runRows_append, hpre]
    dsimp only
    have hr : runRows st1 (l :: post) =
        match step st1 l with
        | Except.ok st2 => runRows st2 post
        | Except.error e => Except.error e := rfl
    rw [hr, step_error st1 l h5 hk hid]
  unfold process_file
  rw [hdata]
  dsimp only
  rw [herr]

def c1row : List Str :=
  [("FR".data), ("Bretagne".data), ("region".data), ("BRE".data), ("abc".data)]

def c1input : List (List Str) := [c1row]

theorem claim_C1_witness :
    dataRows c1input = Except.ok ([] ++ c1row :: []) ∧
    runRows ⟨[], []⟩ [] = Except.ok ⟨[], []⟩ ∧
    ¬ c1row.length < 5 ∧
    lineKey c1row ∉ (⟨[], []⟩ : ConvState).seen ∧
    pyInt (fieldNum c1row) = none ∧
    process_file c1input = Except.error (("Invalid subdivision id: ".data) ++ fieldNum c1row) :=
  ⟨rfl, rfl, by decide, by decide, rfl,
    claim_C1_fatal_on_bad_id c1input [] [] c1row ⟨[], []⟩ rfl rfl (by decide) (by decide) rfl⟩

theorem escapeQuotes_length (s : Str) :
    (escapeQuotes s).length = s.length + s.count sqc := by
  induction s with
  | nil => rfl
  | cons c r ih =>
    by_cases hc : c = sqc
    · subst hc
      simp [escapeQuotes, List.count_cons, ih]
      omega
    · simp [escapeQuotes, hc, List.count_cons, ih, Ne.symm hc]
      omega

theorem escapeQuotes_ne_of_mem (s : Str) (h : sqc ∈ s) : escapeQuotes s ≠ s := by
  intro heq
  have hl := escapeQuotes_length s
  rw [heq] at hl
  have hc : s.count sqc = 0 := by omega
  exact (List.count_eq_zero.mp hc) h

/-- C4: an input row whose first field, after trimming and unquoting, equals
KP in any letter case is rewritten to KR before the dedup key is computed and
before output: the dedup key is (KR, regional code) and the emitted tuple is
built with alpha-2 code KR, so its subquery reads `country_alpha2 = 'KR'`. -/
theorem claim_C4_kp_remap (st : ConvState) (line : List Str)
    (hkp : pyUpper (cleanField (line.getD 0 [])) = ("KP".data)) :
    fieldAlpha2 line = ("KR".data) ∧
    lineKey line = (("KR".data), fieldCode line) ∧
    (∀ id, ¬ line.length < 5 → lineKey line ∉ st.seen →
      pyInt (fieldNum line) = some id →
      step st line = Except.ok ⟨st.seen ++ [(("KR".data), fieldCode line)],
        st.rows ++ [rowStrFmt id ("KR".data) (escapeQuotes (fieldCode line))
          (escapeQuotes (fieldName line)) (escapeQuotes (fieldType line))]⟩) := by
  have ha : fieldAlpha2 line = ("KR".data) := by
    unfold fieldAlpha2 remapKP
    rw [if_pos hkp]
  have hkey : lineKey line = (("KR".data), fieldCode line) := by
    unfold lineKey
    rw [ha]
  refine ⟨ha, hkey, ?_⟩
  intro id h5 hk hid
  rw [step_emit st line h5 hk id hid, ha, hkey]

def c4line : List Str :=
  [(" kp ".data), ("N".data), ("t".data), ("01".data), ("1".data)]

theorem claim_C4_witness :
    pyUpper (cleanField (c4line.getD 0 [])) = ("KP".data) ∧
    fieldAlpha2 c4line = ("KR".data) ∧
    lineKey c4line = (("KR".data), fieldCode c4line) ∧
    step ⟨[], []⟩ c4line = Except.ok ⟨[(("KR".data), fieldCode c4line)],
      [rowStrFmt 1 ("KR".data) (escapeQuotes (fieldCode c4line))
        (escapeQuotes (fieldName c4line)) (escapeQuotes (fieldType c4line))]⟩ :=
  ⟨by decide, (claim_C4_kp_remap ⟨[], []⟩ c4line (by decide)).1,
    (claim_C4_kp_remap ⟨[], []⟩ c4line (by decide)).2.1,
    (claim_C4_kp_remap ⟨[], []⟩ c4line (by decide)).2.2 1 (by decide) (by decide) rfl⟩

/-- C6: in every emitted tuple the code, name and type fields are embedded
through `escapeQuotes`, and `escapeQuotes` replaces each single quote with two
consecutive single quotes while leaving every other character unchanged: it
distributes over any decomposition at a quote, and it is the identity on
quote-free strings. -/
theorem claim_C6_quote_escaping (u v s : Str) (st : ConvState) (line : List Str)
    (id : Int) :
    (escapeQuotes (u ++ sqc :: v) = escapeQuotes u ++ sqc :: sqc :: escapeQuotes v) ∧
    (sqc ∉ s → escapeQuotes s = s) ∧
    (¬ line.length < 5 → lineKey line ∉ st.seen →
      pyInt (fieldNum line) = some id →
      step st line = Except.ok ⟨st.seen ++ [lineKey line],
        st.rows ++ [rowStrFmt id (fieldAlpha2 line) (escapeQuotes (fieldCode line))
          (escapeQuotes (fieldName line)) (escapeQuotes (fieldType line))]⟩) := by
  refine ⟨?_, ?_, ?_⟩
  · induction u with
    | nil => simp [escapeQuotes]
    | cons c r ih =>
      by_cases hc : c = sqc <;> simp [escapeQuotes, hc, ih]
  · intro h
    induction s with
    | nil => rfl
    | cons c r ih =>
      simp only [List.mem_cons, not_or] at h
      simp [escapeQuotes, Ne.symm h.1, ih h.2]
  · intro h5 hk hid
    exact step_emit st line h5 hk id hid

def c6line : List Str :=
  [("AA".data), (sqc :: ("Na".data)), ("ty".data), ("c".data), ("2".data)]

theorem claim_C6_witness :
    escapeQuotes (("a".data) ++ sqc :: ("b".data)) =
      escapeQuotes ("a".data) ++ sqc :: sqc :: escapeQuotes ("b".data) ∧
    escapeQuotes ("xy".data) = ("xy".data) ∧
    step ⟨[], []⟩ c6line = Except.ok ⟨[lineKey c6line],
      [rowStrFmt 2 (fieldAlpha2 c6line) (escapeQuotes (fieldCode c6line))
        (escapeQuotes (fieldName c6line)) (escapeQuotes (fieldType c6line))]⟩ :=
  ⟨(claim_C6_quote_escaping ("a".data) ("b".data) ("xy".data) ⟨[], []⟩ c6line 2).1,
    (claim_C6_quote_escaping ("a".data) ("b".data) ("xy".data) ⟨[], []⟩ c6line 2).2.1
      (by decide),
    (claim_C6_quote_escaping ("a".data) ("b".data) ("xy".data) ⟨[], []⟩ c6line 2).2.2
      (by decide) (by decide) rfl⟩

/-- C9: the cleaned, remapped alpha-2 code is interpolated into the
country-code subquery without quote escaping.  For an emitted row whose
alpha-2 code contains a single quote, the tuple is built with the raw code
(only code, name and type go through `escapeQuotes`), the subquery literal
contains the raw code verbatim between its quote delimiters, and escaping
would have changed the code, so the interpolation is genuinely unescaped. -/
theorem claim_C9_alpha2_unescaped (st : ConvState) (line : List Str) (id : Int)
    (h5 : ¬ line.length < 5) (hk : lineKey line ∉ st.seen)
    (hid : pyInt (fieldNum line) = some id)
    (hq : sqc ∈ fieldAlpha2 line) :
    step st line = Except.ok ⟨st.seen ++ [lineKey line],
      st.rows ++ [rowStrFmt id (fieldAlpha2 line) (escapeQuotes (fieldCode line))
        (escapeQuotes (fieldName line)) (escapeQuotes (fieldType line))]⟩ ∧
    countryCodeExpr (fieldAlpha2 line) =
      ("(SELECT country_code FROM public.iso_country WHERE country_alpha2 = ".data)
        ++ [sqc] ++ fieldAlpha2 line ++ [sqc, Char.ofNat 41] ∧
    escapeQuotes (fieldAlpha2 line) ≠ fieldAlpha2 line :=
  ⟨step_emit st line h5 hk id hid, rfl, escapeQuotes_ne_of_mem _ hq⟩

def c9line : List Str :=
  [(sqc :: ("US".data)), ("Nm".data), ("ty".data), ("cd".data), ("3".data)]

theorem claim_C9_witness :
    (¬ c9line.length < 5) ∧
    lineKey c9line ∉ (⟨[], []⟩ : ConvState).seen ∧
    pyInt (fieldNum c9line) = some 3 ∧
    sqc ∈ fieldAlpha2 c9line ∧
    (step ⟨[], []⟩ c9line = Except.ok ⟨[lineKey c9line],
      [rowStrFmt 3 (fieldAlpha2 c9line) (escapeQuotes (fieldCode c9line))
        (escapeQuotes (fieldName c9line)) (escapeQuotes (fieldType c9line))]⟩ ∧
      countryCodeExpr (fieldAlpha2 c9line) =
        ("(SELECT country_code FROM public.iso_country WHERE country_alpha2 = ".data)
          ++ [sqc] ++ fieldAlpha2 c9line ++ [sqc, Char.ofNat 41] ∧
      escapeQuotes (fieldAlpha2 c9line) ≠ fieldAlpha2 c9line) :=
  ⟨by decide, by decide, rfl, by decide,
    claim_C9_alpha2_unescaped ⟨[], []⟩ c9line 3 (by decide) (by decide) rfl (by decide)⟩

theorem step_short (st : ConvState) (l : List Str) (h : l.length < 5) :
    step st l = Except.ok st := by
  unfold step
  rw [if_pos h]

theorem step_seen (st : ConvState) (l : List Str) (h5 : ¬ l.length < 5)
    (hk : lineKey l ∈ st.seen) : step st l = Except.ok st := by
  simp [step, h5, hk]

/-- The tuple a valid row contributes, as a total function (for rows whose
id parses, this agrees with what the loop appends). -/
def buildLine (l : List Str) : Str :=
  rowStrFmt ((pyInt (fieldNum l)).getD 0) (fieldAlpha2 l)
    (escapeQuotes (fieldCode l)) (escapeQuotes (fieldName l))
    (escapeQuotes (fieldType l))

/-- Specification-side first-occurrence filter: keep each row whose dedup key
has not appeared earlier, dropping every later row with the same key. -/
def dedupFirst : List (List Str) → List (List Str)
  | [] => []
  | l :: r => l :: dedupFirst (r.filter (fun x => decide (lineKey x ≠ lineKey l)))
termination_by xs => xs.length
decreasing_by
  simp only [List.length_cons]
  exact Nat.lt_succ_of_le (List.length_filter_le _ _)

/-- A data row survives the length check and, given the current seen set, the
dedup check. -/
def survives (seen : List (Str × Str)) (l : List Str) : Bool :=
  !(decide (l.length < 5)) && !(decide (lineKey l ∈ seen))

/-- The data rows with at least five fields. -/
def validRows (rows : List (List Str)) : List (List Str) :=
  rows.filter (fun l => !(decide (l.length < 5)))

theorem runRows_ok_rows (rows : List (List Str)) (st st2 : ConvState)
    (h : runRows st rows = Except.ok st2) :
    st2.rows = st.rows ++ (dedupFirst (rows.filter (survives st.seen))).map buildLine := by
  induction rows generalizing st with
  | nil =>
    have hst : st = st2 := by
      simpa [runRows] using h
    simp [hst, List.filter_nil, dedupFirst]
  | cons l r ih =>
    have hr : runRows st (l :: r) =
        match step st l with
        | Except.ok stx => runRows stx r
        | Except.error e => Except.error e := rfl
    by_cases h5 : l.length < 5
    · rw [hr, step_short st l h5] at h
      have hsurv : survives st.seen l = false := by
        simp [survives, h5]
      rw [List.filter_cons_of_neg (by simp [hsurv])]
      exact ih st h
    · by_cases hk : lineKey l ∈ st.seen
      · rw [hr, step_seen st l h5 hk] at h
        have hsurv : survives st.seen l = false := by
          simp [survives, hk]
        rw [List.filter_cons_of_neg (by simp [hsurv])]
        exact ih st h
      · cases hid : pyInt (fieldNum l) with
        | none =>
          rw [hr, step_error st l h5 hk hid] at h
          exact absurd h (by simp)
        | some id =>
          rw [hr, step_emit st l h5 hk id hid] at h
          have hbuild : rowStrFmt id (fieldAlpha2 l) (escapeQuotes (fieldCode l))
              (escapeQuotes (fieldName l)) (escapeQuotes (fieldType l)) = buildLine l := by
            unfold buildLine
            rw [hid]
            rfl
          have hih := ih ⟨st.seen ++ [lineKey l],
            st.rows ++ [rowStrFmt id (fieldAlpha2 l) (escapeQuotes (fieldCode l))
              (escapeQuotes (fieldName l)) (escapeQuotes (fieldType l))]⟩ h
        -- the extended seen set filters exactly the rows that either were
        -- already filtered or share the new key
          have hsurv : survives st.seen l = true := by
            simp [survives, h5, hk]
          rw [List.filter_cons_of_pos (by simp [hsurv])]
          rw [dedupFirst]
          have hfilters : (r.filter (survives st.seen)).filter
              (fun x => decide (lineKey x ≠ lineKey l)) =
              r.filter (survives (st.seen ++ [lineKey l])) := by
            rw [List.filter_filter]
            apply List.filter_congr
            intro x _
            simp [survives, List.mem_append, List.mem_singleton, not_or,
              Bool.and_assoc, Bool.and_comm]
          rw [← hfilters] at hih
          simp only [List.map_cons, hbuild] at hih ⊢
          rw [hih]
          simp

theorem dedupFirst_sublist_fuel (n : Nat) :
    ∀ xs : List (List Str), xs.length ≤ n → (dedupFirst xs).Sublist xs := by
  induction n with
  | zero =>
    intro xs h
    have hx : xs = [] := List.eq_nil_of_length_eq_zero (Nat.le_zero.mp h)
    subst hx
    simp [dedupFirst]
  | succ n ih =>
    intro xs h
    cases xs with
    | nil => simp [dedupFirst]
    | cons l r =>
      rw [dedupFirst]
      refine List.Sublist.cons₂ l ?_
      have hlen : (r.filter (fun x => decide (lineKey x ≠ lineKey l))).length ≤ n := by
        have := List.length_filter_le (fun x => decide (lineKey x ≠ lineKey l)) r
        simp only [List.length_cons] at h
        omega
      exact (ih _ hlen).trans (List.filter_sublist r)

theorem dedupFirst_sublist (xs : List (List Str)) : (dedupFirst xs).Sublist xs :=
  dedupFirst_sublist_fuel xs.length xs le_rfl

theorem dedupFirst_keys_nodup_fuel (n : Nat) :
    ∀ xs : List (List Str), xs.length ≤ n → ((dedupFirst xs).map lineKey).Nodup := by
  induction n with
  | zero =>
    intro xs h
    have hx : xs = [] := List.eq_nil_of_length_eq_zero (Nat.le_zero.mp h)
    subst hx
    simp [dedupFirst]
  | succ n ih =>
    intro xs h
    cases xs with
    | nil => simp [dedupFirst]
    | cons l r =>
      rw [dedupFirst]
      simp only [List.map_cons, List.nodup_cons]
      have hlen : (r.filter (fun x => decide (lineKey x ≠ lineKey l))).length ≤ n := by
        have := List.length_filter_le (fun x => decide (lineKey x ≠ lineKey l)) r
        simp only [List.length_cons] at h
        omega
      refine ⟨?_, ih _ hlen⟩
      intro hmem
      rcases List.mem_map.mp hmem with ⟨x, hx, hkey⟩
      have hxf : x ∈ r.filter (fun x => decide (lineKey x ≠ lineKey l)) :=
        (dedupFirst_sublist _).subset hx
      have : lineKey x ≠ lineKey l := by
        have := List.of_mem_filter hxf
        simpa using this
      exact this hkey

theorem dedupFirst_keys_complete_fuel (n : Nat) :
    ∀ xs : List (List Str), xs.length ≤ n →
      ∀ x ∈ xs, lineKey x ∈ (dedupFirst xs).map lineKey := by
  induction n with
  | zero =>
    intro xs h
    have hx : xs = [] := List.eq_nil_of_length_eq_zero (Nat.le_zero.mp h)
    subst hx
    intro x hx2
    exact absurd hx2 (List.not_mem_nil x)
  | succ n ih =>
    intro xs h x hx
    cases xs with
    | nil => exact absurd hx (List.not_mem_nil x)
    | cons l r =>
      rw [dedupFirst]
      simp only [List.map_cons, List.mem_cons]
      rcases List.mem_cons.mp hx with heq | hmem
      · subst heq
        exact Or.inl rfl
      · by_cases hkey : lineKey x = lineKey l
        · exact Or.inl hkey
        · have hxf : x ∈ r.filter (fun y => decide (lineKey y ≠ lineKey l)) :=
            List.mem_filter.mpr ⟨hmem, by simpa using hkey⟩
          have hlen : (r.filter (fun y => decide (lineKey y ≠ lineKey l))).length ≤ n := by
            have := List.length_filter_le (fun y => decide (lineKey y ≠ lineKey l)) r
            simp only [List.length_cons] at h
            omega
          exact Or.inr (ih _ hlen x hxf)

/-- C2: among the data rows that pass the length check, exactly the first row
of each dedup key (remapped alpha-2 code, regional code) contributes a tuple
and every later duplicate is silently skipped, preserving input order.  On a
successful run the emitted tuple list is exactly the first-occurrence
subsequence `dedupFirst` of the valid rows mapped through tuple building;
that subsequence is a sublist of the valid rows (input order of first
occurrences preserved), its keys are pairwise distinct (no key contributes
twice), and the key of every valid row is represented in it (by the key's
first occurrence). -/
theorem claim_C2_first_occurrence_wins (rows : List (List Str)) (st2 : ConvState)
    (h : runRows ⟨[], []⟩ rows = Except.ok st2) :
    st2.rows = (dedupFirst (validRows rows)).map buildLine ∧
    (dedupFirst (validRows rows)).Sublist (validRows rows) ∧
    ((dedupFirst (validRows rows)).map lineKey).Nodup ∧
    (∀ x ∈ validRows rows, lineKey x ∈ (dedupFirst (validRows rows)).map lineKey) := by
  have hmain := runRows_ok_rows rows ⟨[], []⟩ st2 h
  have hfilter : rows.filter (survives ([] : List (Str × Str))) = validRows rows := by
    unfold validRows
    apply List.filter_congr
    intro x _
    simp [survives]
  rw [hfilter] at hmain
  refine ⟨by simpa using hmain, dedupFirst_sublist _,
    dedupFirst_keys_nodup_fuel (validRows rows).length _ le_rfl,
    dedupFirst_keys_complete_fuel (validRows rows).length _ le_rfl⟩

def c2rowA : List Str :=
  [("US".data), ("Alpha".data), ("t".data), ("01".data), ("1".data)]

def c2rowB : List Str :=
  [("US".data), ("Beta".data), ("t".data), ("02".data), ("2".data)]

def c2rowA2 : List Str :=
  [("US".data), ("Gamma".data), ("t".data), ("01".data), ("3".data)]

def c2rows : List (List Str) := [c2rowA, c2rowB, c2rowA2]

def c2state : ConvState :=
  ⟨[(("US".data), ("01".data)), (("US".data), ("02".data))],
    [buildLine c2rowA, buildLine c2rowB]⟩

theorem claim_C2_witness :
    runRows ⟨[], []⟩ c2rows = Except.ok c2state ∧
    (c2state.rows = (dedupFirst (validRows c2rows)).map buildLine ∧
      (dedupFirst (validRows c2rows)).Sublist (validRows c2rows) ∧
      ((dedupFirst (validRows c2rows)).map lineKey).Nodup ∧
      (∀ x ∈ validRows c2rows, lineKey x ∈ (dedupFirst (validRows c2rows)).map lineKey)) :=
  ⟨rfl, claim_C2_first_occurrence_wins c2rows c2state rfl⟩

/-!
Model of visitor.py.  The script's only source of randomness is the global
`random` generator seeded with 42, a deterministic stream; each primitive
`random.randint(a, b)` call is modelled as consuming one abstract draw
`d : Nat` from that stream and mapping it into range as `a + d % (b - a + 1)`,
so every in-range value is realizable and the draws are a function of the
seed alone.  `datetime.now()` is NOT derived from the seed: the clock value
observed while generating row `i` is an explicit input `nows i` (seconds).
Coordinates `round(uniform(x, y), 6)` are modelled in millionths of a degree
as integers; float repr and `datetime.isoformat` (both injective on distinct
values) are modelled by the injective decimal rendering `intToStr`.  The
pool-building `while` loop is modelled with a fuel bound counting loop
iterations; the loop exits once 1500 distinct pairs have accumulated.
`csv.writer` with default quoting writes each row as the comma-join of its
fields (none of the generated fields ever needs quoting) followed by CRLF.
-/

def pyRandint (a b d : Nat) : Nat := a + d % (b - a + 1)

def asciiLetters : Str :=
  ("abcdefghijklmnopqrstuvwxyzABCDEFGHIJKLMNOPQRSTUVWXYZ".data)

/-- visitor.py `random_ipv4`: four octets, each `randint(1, 254)`, joined
with dots. -/
def random_ipv4 (d1 d2 d3 d4 : Nat) : Str :=
  natToStr (pyRandint 1 254 d1) ++ (".".data) ++ natToStr (pyRandint 1 254 d2)
    ++ (".".data) ++ natToStr (pyRandint 1 254 d3) ++ (".".data)
    ++ natToStr (pyRandint 1 254 d4)

/-- visitor.py `random_string`: `k` letters chosen from `string.ascii_letters`
(52 letters), the `j`-th chosen by draw `ds j`. -/
def random_string (k : Nat) (ds : Nat → Nat) : Str :=
  (List.range k).map (fun j => asciiLetters.getD (ds j % 52) (Char.ofNat 97))

/-- visitor.py `random_city`: a random string of length `randint(6, 10)`. -/
def random_city (dLen : Nat) (ds : Nat → Nat) : Str :=
  random_string (pyRandint 6 10 dLen) ds

/-- visitor.py `random_country`: a random string of length `randint(7, 15)`. -/
def random_country (dLen : Nat) (ds : Nat → Nat) : Str :=
  random_string (pyRandint 7 15 dLen) ds

/-- visitor.py `random_datetime_within_years(3)`: `start = now - 1095 days`
(exactly 94608000 seconds) and the result is `start` plus
`randint(0, 94608000)` seconds; the clock value `now` is an explicit input. -/
def random_datetime_within_years (now : Int) (d : Nat) : Int :=
  now - 94608000 + Int.ofNat (pyRandint 0 94608000 d)

/-- The abstract draws consumed while generating one output row. -/
structure RowDraws where
  choice : Nat
  ip1 : Nat
  ip2 : Nat
  ip3 : Nat
  ip4 : Nat
  cityLen : Nat
  cityChars : Nat → Nat
  countryLen : Nat
  countryChars : Nat → Nat
  dt : Nat

/-- One iteration of the pool loop body: `unique_lat_longs.add@(pair)`,
a set insertion (modelled on a duplicate-free list). -/
def poolStep (s : List (Int × Int)) (p : Int × Int) : List (Int × Int) :=
  if p ∈ s then s else s ++ [p]

/-- Fuel-bounded model of `while len(unique_lat_longs) < 1500:` drawing the
rounded coordinate pair `pd n` at iteration `n`. -/
def buildPool (pd : Nat → Int × Int) : Nat → List (Int × Int)
  | 0 => []
  | n + 1 =>
    if (buildPool pd n).length < 1500 then poolStep (buildPool pd n) (pd n)
    else buildPool pd n

/-- Python `random.choice(l)`: an index uniform in `[0, len l)`, modelled as
the draw taken modulo the length. -/
def pyChoice (l : List (Int × Int)) (d : Nat) : Int × Int :=
  l.getD (d % l.length) (0, 0)

/-- One output row of visitor.py, as its list of six CSV fields in source
order: lat, lon, ip, city, country, timestamp. -/
def genRow (pool : List (Int × Int)) (now : Int) (rd : RowDraws) : List Str :=
  [intToStr (pyChoice pool rd.choice).1,
   intToStr (pyChoice pool rd.choice).2,
   random_ipv4 rd.ip1 rd.ip2 rd.ip3 rd.ip4,
   random_city rd.cityLen rd.cityChars,
   random_country rd.countryLen rd.countryChars,
   intToStr (random_datetime_within_years now rd.dt)]

def joinComma : List Str → Str
  | [] => []
  | [f] => f
  | f :: r => f ++ (",".data) ++ joinComma r

/-- The CSV line `csv.writer` emits for a row none of whose fields needs
quoting: the comma-join of the fields. -/
def csvLine (fs : List Str) : Str := joinComma fs

def CRLF : Str := ("\r\n".data)

/-- The 3,000,000 output lines, in order; row `i` sees clock value `nows i`
and consumes draws `rds i`. -/
def visitorLines (pool : List (Int × Int)) (nows : Nat → Int)
    (rds : Nat → RowDraws) : List Str :=
  (List.range 3000000).map (fun i => csvLine (genRow pool (nows i) (rds i)))

/-- The byte content of `visitation_data.csv`: each line followed by the
CRLF terminator `csv.writer` appends. -/
def visitorFile (pd : Nat → Int × Int) (fuel : Nat) (rds : Nat → RowDraws)
    (nows : Nat → Int) : Str :=
  ((visitorLines (buildPool pd fuel) nows rds).map (fun l => l ++ CRLF)).flatten

theorem buildPool_nodup (pd : Nat → Int × Int) (n : Nat) :
    (buildPool pd n).Nodup := by
  induction n with
  | zero => simp [buildPool]
  | succ n ih =>
    rw [buildPool]
    by_cases hlen : (buildPool pd n).length < 1500
    · rw [if_pos hlen]
      unfold poolStep
      by_cases hmem : pd n ∈ buildPool pd n
      · rw [if_pos hmem]
        exact ih
      · rw [if_neg hmem]
        simp [List.nodup_append, ih, hmem]
    · rw [if_neg hlen]
      exact ih

theorem buildPool_map_range (pd : Nat → Int × Int)
    (hinj : ∀ i j, pd i = pd j → i = j) (n : Nat) (hn : n ≤ 1500) :
    buildPool pd n = (List.range n).map pd := by
  induction n with
  | zero => simp [buildPool]
  | succ n ih =>
    have hn2 : n ≤ 1500 := Nat.le_of_succ_le hn
    have hprev := ih hn2
    rw [buildPool, hprev]
    have hlen : ((List.range n).map pd).length < 1500 := by
      simp only [List.length_map, List.length_range]
      omega
    rw [if_pos hlen]
    unfold poolStep
    have hmem : pd n ∉ (List.range n).map pd := by
      intro hmem
      rcases List.mem_map.mp hmem with ⟨k, hk, hpd⟩
      have hkn : k < n := List.mem_range.mp hk
      have := hinj k n hpd
      omega
    rw [if_neg hmem, List.range_succ, List.map_append]
    rfl

theorem natToStrGo_digits (fuel : Nat) :
    ∀ n c, c ∈ natToStrGo fuel n → c.isDigit = true := by
  induction fuel with
  | zero =>
    intro n c h
    exact absurd h (List.not_mem_nil c)
  | succ fuel ih =>
    intro n c h
    have hd : ∀ m, (digitChar m).isDigit = true := by
      intro m
      have hm : m % 10 < 10 := Nat.mod_lt _ (by omega)
      unfold digitChar
      interval_cases h2 : m % 10 <;> decide
    rw [natToStrGo] at h
    by_cases hn : n < 10
    · rw [if_pos hn] at h
      rcases List.mem_singleton.mp h with rfl
      exact hd n
    · rw [if_neg hn] at h
      rcases List.mem_append.mp h with h1 | h1
      · exact ih _ c h1
      · rcases List.mem_singleton.mp h1 with rfl
        exact hd _

theorem natToStr_no_comma (n : Nat) : commaChar ∉ natToStr n := by
  intro h
  have := natToStrGo_digits (n + 1) n commaChar h
  exact absurd this (by decide)

theorem intToStr_no_comma (i : Int) : commaChar ∉ intToStr i := by
  unfold intToStr
  by_cases hi : i < 0
  · rw [if_pos hi]
    intro h
    rcases List.mem_cons.mp h with h1 | h1
    · exact absurd h1 (by decide)
    · exact natToStr_no_comma _ h1
  · rw [if_neg hi]
    exact natToStr_no_comma _

theorem random_ipv4_no_comma (d1 d2 d3 d4 : Nat) :
    commaChar ∉ random_ipv4 d1 d2 d3 d4 := by
  unfold random_ipv4
  intro h
  simp only [List.mem_append] at h
  rcases h with ((((((h | h) | h) | h) | h) | h) | h) <;>
    first
      | exact natToStr_no_comma _ h
      | exact absurd h (by decide)

theorem random_string_no_comma (k : Nat) (ds : Nat → Nat) :
    commaChar ∉ random_string k ds := by
  intro h
  unfold random_string at h
  rcases List.mem_map.mp h with ⟨j, _, hc⟩
  have hlt : ds j % 52 < asciiLetters.length := by
    have : ds j % 52 < 52 := Nat.mod_lt _ (by omega)
    simpa [asciiLetters] using this
  rw [List.getD_eq_getElem asciiLetters (Char.ofNat 97) hlt] at hc
  have hmem : asciiLetters[ds j % 52] ∈ asciiLetters := List.getElem_mem hlt
  rw [hc] at hmem
  have : ∀ c ∈ asciiLetters, ¬ c = commaChar := by decide
  exact this commaChar hmem rfl

theorem genRow_no_comma (pool : List (Int × Int)) (now : Int) (rd : RowDraws) :
    ∀ f ∈ genRow pool now rd, commaChar ∉ f := by
  intro f hf
  unfold genRow at hf
  simp only [List.mem_cons, List.not_mem_nil, or_false] at hf
  rcases hf with rfl | rfl | rfl | rfl | rfl | rfl
  · exact intToStr_no_comma _
  · exact intToStr_no_comma _
  · exact random_ipv4_no_comma _ _ _ _
  · exact random_string_no_comma _ _
  · exact random_string_no_comma _ _
  · exact intToStr_no_comma _

/-- C5: assuming the pool loop completed (`hsat`: the fuel sufficed to reach
1500 pairs), the generator emits exactly 3,000,000 CSV lines and nothing
else (no header row); line `i` is the comma-join of the six fields of row
`i`; every row is exactly the six fields lat, lon, ip, city, country,
timestamp in that order, with the (lat, lon) pair indexed from the pool by
the row's own independent choice draw (the model of uniform choice with
replacement); the pool holds exactly 1500 pairwise-distinct pairs; and every
row has exactly 6 fields none of which contains a comma, so each line has
exactly 6 comma-separated fields. -/
theorem claim_C5_generator_shape (pd : Nat → Int × Int) (fuel : Nat)
    (rds : Nat → RowDraws) (nows : Nat → Int)
    (hsat : (buildPool pd fuel).length = 1500) :
    (visitorLines (buildPool pd fuel) nows rds).length = 3000000 ∧
    (buildPool pd fuel).Nodup ∧
    (∀ i, i < 3000000 → (visitorLines (buildPool pd fuel) nows rds).getD i [] =
      csvLine (genRow (buildPool pd fuel) (nows i) (rds i))) ∧
    (∀ now rd, genRow (buildPool pd fuel) now rd =
      [intToStr (pyChoice (buildPool pd fuel) rd.choice).1,
       intToStr (pyChoice (buildPool pd fuel) rd.choice).2,
       random_ipv4 rd.ip1 rd.ip2 rd.ip3 rd.ip4,
       random_city rd.cityLen rd.cityChars,
       random_country rd.countryLen rd.countryChars,
       intToStr (random_datetime_within_years now rd.dt)] ∧
      pyChoice (buildPool pd fuel) rd.choice ∈ buildPool pd fuel) ∧
    (∀ now rd, (genRow (buildPool pd fuel) now rd).length = 6 ∧
      ∀ f ∈ genRow (buildPool pd fuel) now rd, commaChar ∉ f) := by
  refine ⟨?_, buildPool_nodup pd fuel, ?_, ?_, ?_⟩
  · simp [visitorLines]
  · intro i hi
    have hlen : i < ((List.range 3000000).map
        (fun i => csvLine (genRow (buildPool pd fuel) (nows i) (rds i)))).length := by
      simpa using hi
    unfold visitorLines
    rw [List.getD_eq_getElem _ _ hlen]
    simp
  · intro now rd
    refine ⟨rfl, ?_⟩
    unfold pyChoice
    have hpos : rd.choice % (buildPool pd fuel).length < (buildPool pd fuel).length := by
      rw [hsat]
      exact Nat.mod_lt _ (by omega)
    rw [List.getD_eq_getElem _ _ hpos]
    exact List.getElem_mem hpos
  · intro now rd
    exact ⟨rfl, genRow_no_comma _ _ _⟩

def cPd : Nat → Int × Int := fun n => (Int.ofNat n, 0)

theorem cPd_inj : ∀ i j, cPd i = cPd j → i = j := by
  intro i j h
  unfold cPd at h
  have := congrArg Prod.fst h
  simpa using this

def cRd : RowDraws := ⟨0, 0, 0, 0, 0, 0, fun _ => 0, 0, fun _ => 0, 94608000⟩

def cRds : Nat → RowDraws := fun _ => cRd

def cNows1 : Nat → Int := fun _ => 0

def cNows2 : Nat → Int := fun _ => 1

theorem claim_C5_witness :
    (buildPool cPd 1500).length = 1500 ∧
    ((visitorLines (buildPool cPd 1500) cNows1 cRds).length = 3000000 ∧
     (buildPool cPd 1500).Nodup ∧
     (∀ i, i < 3000000 → (visitorLines (buildPool cPd 1500) cNows1 cRds).getD i [] =
       csvLine (genRow (buildPool cPd 1500) (cNows1 i) (cRds i))) ∧
     (∀ now rd, genRow (buildPool cPd 1500) now rd =
       [intToStr (pyChoice (buildPool cPd 1500) rd.choice).1,
        intToStr (pyChoice (buildPool cPd 1500) rd.choice).2,
        random_ipv4 rd.ip1 rd.ip2 rd.ip3 rd.ip4,
        random_city rd.cityLen rd.cityChars,
        random_country rd.countryLen rd.countryChars,
        intToStr (random_datetime_within_years now rd.dt)] ∧
       pyChoice (buildPool cPd 1500) rd.choice ∈ buildPool cPd 1500) ∧
     (∀ now rd, (genRow (buildPool cPd 1500) now rd).length = 6 ∧
       ∀ f ∈ genRow (buildPool cPd 1500) now rd, commaChar ∉ f)) :=
  ⟨by rw [buildPool_map_range cPd cPd_inj 1500 le_rfl]; simp,
   claim_C5_generator_shape cPd 1500 cRds cNows1
     (by rw [buildPool_map_range cPd cPd_inj 1500 le_rfl]; simp)⟩

theorem joinComma6_cancel0 {a b c d e t1 t2 : Str}
    (h : joinComma [a, b, c, d, e, t1] = joinComma [a, b, c, d, e, t2]) : t1 = t2 := by
  simp only [joinComma, List.append_assoc] at h
  have h1 := List.append_cancel_left h
  have h2 := List.append_cancel_left h1
  have h3 := List.append_cancel_left h2
  have h4 := List.append_cancel_left h3
  have h5 := List.append_cancel_left h4
  have h6 := List.append_cancel_left h5
  have h7 := List.append_cancel_left h6
  have h8 := List.append_cancel_left h7
  have h9 := List.append_cancel_left h8
  exact List.append_cancel_left h9

theorem joinComma6_length {a b c d e t1 t2 : Str} (ht : t1.length = t2.length) :
    (joinComma [a, b, c, d, e, t1]).length = (joinComma [a, b, c, d, e, t2]).length := by
  simp only [joinComma, List.length_append, ht]

theorem file_head_ne (g1 g2 : Nat → Str) (n : Nat) (hn : 0 < n)
    (hlen : (g1 0).length = (g2 0).length) (hne : g1 0 ≠ g2 0) :
    (((List.range n).map g1).map (fun l => l ++ CRLF)).flatten ≠
    (((List.range n).map g2).map (fun l => l ++ CRLF)).flatten := by
  cases n with
  | zero => omega
  | succ m =>
    rw [List.range_succ_eq_map]
    simp only [List.map_cons, List.flatten_cons]
    intro h
    have hlen2 : (g1 0 ++ CRLF).length = (g2 0 ++ CRLF).length := by
      simp [List.length_append, hlen]
    have hh := (List.append_inj h hlen2).1
    exact hne (List.append_cancel_right hh)

/-- C3 counterexample: the generator output is NOT a function of the seed
alone.  With identical seed-derived randomness (pool draws `cPd`, row draws
`cRds`) but clock reading 0 in one run and 1 in the other, the produced
files differ: each row timestamp is the `datetime.now()` value shifted by a
seed-determined offset, so it moves with the clock.  Here the draws make
row 0 render timestamp 0 in the first run and 1 in the second, so the
files already differ at the first line. -/
theorem claim_C3_counterexample :
    visitorFile cPd 1500 cRds cNows1 ≠ visitorFile cPd 1500 cRds cNows2 := by
  have hts1 : intToStr (random_datetime_within_years 0 cRd.dt) = ("0".data) := by decide
  have hts2 : intToStr (random_datetime_within_years 1 cRd.dt) = ("1".data) := by decide
  have hne0 : csvLine (genRow (buildPool cPd 1500) 0 cRd) ≠
      csvLine (genRow (buildPool cPd 1500) 1 cRd) := by
    intro heq
    simp only [csvLine, genRow] at heq
    have hfin := joinComma6_cancel0 heq
    rw [hts1, hts2] at hfin
    exact absurd hfin (by decide)
  have hlen0 : (csvLine (genRow (buildPool cPd 1500) 0 cRd)).length =
      (csvLine (genRow (buildPool cPd 1500) 1 cRd)).length := by
    have ht : (intToStr (random_datetime_within_years 0 cRd.dt)).length =
        (intToStr (random_datetime_within_years 1 cRd.dt)).length := by
      rw [hts1, hts2]
      decide
    simp only [csvLine, genRow]
    exact joinComma6_length ht
  unfold visitorFile visitorLines
  exact file_head_ne _ _ 3000000 (by omega) hlen0 hne0

/-- C3 amended: the generator is deterministic in the seed and the observed
wall-clock readings together: two runs with the same seed-derived draws that
observe the same `datetime.now()` values produce byte-identical output
files.  (Determinism in the seed alone fails, see the counterexample: each
row's timestamp depends on the clock.) -/
theorem claim_C3_amended_same_clock (pd : Nat → Int × Int) (fuel : Nat)
    (rds : Nat → RowDraws) (nows1 nows2 : Nat → Int)
    (h : ∀ i, nows1 i = nows2 i) :
    visitorFile pd fuel rds nows1 = visitorFile pd fuel rds nows2 := by
  unfold visitorFile visitorLines
  have hfun : (fun i => csvLine (genRow (buildPool pd fuel) (nows1 i) (rds i))) =
      (fun i => csvLine (genRow (buildPool pd fuel) (nows2 i) (rds i))) :=
    funext (fun i => by rw [h i])
  rw [hfun]

def cNowsB : Nat → Int := fun i => Int.ofNat (0 * i)

theorem claim_C3_amended_witness :
    visitorFile cPd 1500 cRds cNows1 = visitorFile cPd 1500 cRds cNowsB :=
  claim_C3_amended_same_clock cPd 1500 cRds cNows1 cNowsB
    (fun i => by simp [cNows1, cNowsB])
